import Mathlib

/-!
Verification of the Planning Center connector service (`app.py`).

The development shallowly embeds the parts of `app.py` that the verified
properties are about:

* a small model `PyVal` of Python/JSON values with Python's truthiness,
  `dict.get` semantics and string formatting, used for the JSON:API
  flattening code of the `/pco/people/find` and `/pco/services/plans`
  handlers (where the dynamic typing is essential to the properties);
* structured models for the remaining functions (`pco_get`,
  `exchange_code_for_token`, `get_valid_access_token`, `auth_callback`,
  `_fetch_service_types`, `_best_name_matches`), where the data flowing
  through the code has a fixed shape.

Computations that can raise a Python exception are embedded in
`Except String`; a `.error` value corresponds to an uncaught exception.
Upstream HTTP traffic is modelled by passing the response (or a stream of
responses, indexed by the number of requests made so far) as an argument.
-/

namespace PCO

/-- A model of the Python/JSON values handled by the flattening code:
`None`, booleans, integers, strings, lists and string-keyed dicts
(dicts are association lists; later bindings shadow earlier ones, as in
a Python dict comprehension). -/
inductive PyVal : Type where
  | none : PyVal
  | bool : Bool → PyVal
  | int : Int → PyVal
  | str : String → PyVal
  | list : List PyVal → PyVal
  | dict : List (String × PyVal) → PyVal

namespace PyVal

/-- Python truthiness: `None`, `False`, `0`, `""`, `[]` and `{}` are falsy. -/
def truthy : PyVal → Bool
  | .none => false
  | .bool b => b
  | .int n => n != 0
  | .str s => s ≠ ""
  | .list xs => !xs.isEmpty
  | .dict kvs => !kvs.isEmpty

/-- Is the value a dict? -/
def isDict : PyVal → Bool
  | .dict _ => true
  | _ => false

/-- Dict lookup; the LAST binding of a key wins, matching the overwrite
behaviour of Python dict construction. -/
def dictFind? (kvs : List (String × PyVal)) (k : String) : Option PyVal :=
  (kvs.reverse.find? (fun p => p.1 == k)).map (·.2)

/-- Pure variant of Python's `v.get(k, d)`: returns `d` when `v` is not a
dict (the exception-raising embedding is `pyGetD`). -/
def pget (v : PyVal) (k : String) (d : PyVal) : PyVal :=
  match v with
  | .dict kvs => (dictFind? kvs k).getD d
  | _ => d

/-- Python `v.get(k)` — `None` default; raises `AttributeError` when `v` is
not a dict. -/
def pyGet : PyVal → String → Except String PyVal
  | .dict kvs, k => .ok ((dictFind? kvs k).getD .none)
  | _, _ => .error "AttributeError: object has no attribute get"

/-- Python `v.get(k, d)`; raises `AttributeError` when `v` is not a dict. -/
def pyGetD : PyVal → String → PyVal → Except String PyVal
  | .dict kvs, k, d => .ok ((dictFind? kvs k).getD d)
  | _, _, _ => .error "AttributeError: object has no attribute get"

/-- Python `k in v` for a dict `v` (key membership); raises `TypeError`
otherwise (the code only applies it to dicts). -/
def pyHasKey : PyVal → String → Except String Bool
  | .dict kvs, k => .ok ((dictFind? kvs k).isSome)
  | _, _ => .error "TypeError: argument of type is not iterable"

/-- Python iteration `for x in v`: lists yield their elements, strings
their characters, dicts their keys; other values raise `TypeError`. -/
def pyIter : PyVal → Except String (List PyVal)
  | .list xs => .ok xs
  | .str s => .ok (s.toList.map (fun c => .str (String.mk [c])))
  | .dict kvs => .ok (kvs.map (fun p => .str p.1))
  | _ => .error "TypeError: object is not iterable"

/-- Python `a or b` (short-circuit, value-returning). -/
def pyOr (a b : PyVal) : PyVal :=
  if truthy a then a else b

/-- Python `str()` / f-string rendering. Exact for the scalar values the
code formats (`None`, booleans, integers, strings). Container values get an
opaque placeholder standing in for Python's `repr`; in a JSON:API document
the formatted `type`/`id` fields are scalars, and no verified property
depends on the rendering of a container. -/
def pyStr : PyVal → String
  | .none => "None"
  | .bool b => if b then "True" else "False"
  | .int n => toString n
  | .str s => s
  | .list _ => "[...]"
  | .dict _ => "\x7b...\x7d"

/-- Python `int(v)` applied to an already-numeric or boolean value
(`int(True) = 1`); other values raise. String parsing is done separately by
`pyIntParse` where the code calls `int` on a string. -/
def pyToInt : PyVal → Except String Int
  | .int n => .ok n
  | .bool b => .ok (if b then 1 else 0)
  | _ => .error "TypeError: int() argument invalid"

end PyVal

/-- ASCII whitespace for Python's `str.strip()`. -/
def isPySpace (c : Char) : Bool :=
  c = ' ' || c = '\t' || c = '\n' || c = '\r' || c = '\x0b' || c = '\x0c'

/-- Python `s.strip()` (ASCII whitespace). -/
def pyStrip (s : String) : String :=
  String.mk (((s.toList.dropWhile isPySpace).reverse.dropWhile isPySpace).reverse)

/-- Python `s.lower()` (ASCII case folding). -/
def pyLower (s : String) : String :=
  String.mk (s.toList.map Char.toLower)

/-- Python `int(s)` for a string `s`: surrounding whitespace is stripped,
then an optional sign followed by a nonempty run of decimal digits.
(Digit-group underscores and non-ASCII digits are not modelled; the code
under verification only meets plain decimal header values.) -/
def pyIntParse (s : String) : Option Int :=
  let t := (pyStrip s).toList
  let core : List Char → Option Int := fun ds =>
    if ds.isEmpty then Option.none
    else if ds.all Char.isDigit then
      Option.some (ds.foldl (fun acc c => acc * 10 + (c.toNat - '0'.toNat)) (0 : Int))
    else Option.none
  match t with
  | '-' :: rest => (core rest).map (fun n => -n)
  | '+' :: rest => core rest
  | _ => core t

open PyVal

/-! ## JSON:API flattening (`find_person`, `services_plans`)

The handlers build a lookup of side-loaded `included` resources keyed by
the f-string `f"{i.get('type')}:{i.get('id')}"` and then denormalize the
relationships of each primary resource against it. -/

/-- The lookup key `f"{ref.get('type')}:{ref.get('id')}"` of a resource or
relationship reference (pure form, valid for dict inputs). -/
def pkey (v : PyVal) : String :=
  pyStr (pget v "type" .none) ++ ":" ++ pyStr (pget v "id" .none)

/-- Build the `included` lookup table:
`{f"{i.get('type')}:{i.get('id')}": i for i in data.get("included", [])}`.
Raises when a member of `included` is not a dict. -/
def buildIncluded (is : List PyVal) : Except String (List (String × PyVal)) :=
  is.mapM (fun i => do
    let t ← pyGet i "type"
    let idv ← pyGet i "id"
    pure (pyStr t ++ ":" ++ pyStr idv, i))

/-- `included.get(key)` on the lookup table (a Python dict, so the last
binding of a key wins). -/
def lookupIncl (tbl : List (String × PyVal)) (k : String) : Option PyVal :=
  (tbl.reverse.find? (fun p => p.1 == k)).map (·.2)

/-- The body of the `find_person` relationship loop, for one reference:
`inc = included.get(key); val = (inc.get("attributes") or {}).get(attr) if inc else None`. -/
def personRefVal (tbl : List (String × PyVal)) (attr : String) (ref : PyVal) :
    Except String PyVal := do
  let t ← pyGet ref "type"
  let idv ← pyGet ref "id"
  let inc := (lookupIncl tbl (pyStr t ++ ":" ++ pyStr idv)).getD .none
  if truthy inc then do
    let a ← pyGet inc "attributes"
    pyGet (pyOr a (.dict [])) attr
  else
    pure .none

/-- `find_person`'s resolution of a relationship reference list: each
reference is resolved against the lookup and the extracted attribute is
appended only when truthy (`if addr: emails.append(addr)`). -/
def personCollect (tbl : List (String × PyVal)) (attr : String) :
    List PyVal → Except String (List PyVal)
  | [] => .ok []
  | ref :: rest => do
    let v ← personRefVal tbl attr ref
    let tail ← personCollect tbl attr rest
    pure (if truthy v then v :: tail else tail)

/-- The body of the `services_plans` relationship loop, for one reference:
`inc = included.get(key); attrs = (inc.get("attributes") or {}) if inc else {}`
followed by building a record `{f: attrs.get(f) for f in fields}` (the code
writes the fields out literally; `fields` is the list of attribute names,
which in both loops double as the output keys). -/
def planRefRecord (tbl : List (String × PyVal)) (fields : List String) (ref : PyVal) :
    Except String PyVal := do
  let t ← pyGet ref "type"
  let idv ← pyGet ref "id"
  let inc := (lookupIncl tbl (pyStr t ++ ":" ++ pyStr idv)).getD .none
  let attrs ← if truthy inc then do
      let a ← pyGet inc "attributes"
      pure (pyOr a (.dict []))
    else
      pure (PyVal.dict [])
  let vals ← fields.mapM (fun f => pyGet attrs f)
  pure (.dict (fields.zip vals))

/-- `services_plans`'s resolution of a relationship reference list: one
record is appended per reference, unconditionally. -/
def planCollect (tbl : List (String × PyVal)) (fields : List String) :
    List PyVal → Except String (List PyVal)
  | [] => .ok []
  | ref :: rest => do
    let rec' ← planRefRecord tbl fields ref
    let tail ← planCollect tbl fields rest
    pure (rec' :: tail)

/-- One relationship of a primary resource:
`if rel.get(name, {}).get("data"): for ref in rel[name]["data"]: ...`,
returning the (possibly empty) reference list to walk. -/
def relRefs (rel : PyVal) (name : String) : Except String (List PyVal) := do
  let relv ← pyGetD rel name (.dict [])
  let dat ← pyGet relv "data"
  if truthy dat then pyIter dat else pure []

/-- Flattening of one `find_person` primary resource (`data` item). -/
def personItem (tbl : List (String × PyVal)) (item : PyVal) : Except String PyVal := do
  let attrs ← pyGetD item "attributes" (.dict [])
  let rel ← pyGetD item "relationships" (.dict [])
  let erefs ← relRefs rel "emails"
  let emails ← personCollect tbl "address" erefs
  let prefs ← relRefs rel "phone_numbers"
  let phones ← personCollect tbl "number" prefs
  let idv ← pyGet item "id"
  let nm ← pyGet attrs "name"
  let fn ← pyGet attrs "first_name"
  let ln ← pyGet attrs "last_name"
  pure (.dict [("id", idv), ("name", nm), ("first_name", fn), ("last_name", ln),
               ("emails", .list emails), ("phones", .list phones)])

/-- The `included` lookup of a response:
`{...} if data.get("included") else {}`. -/
def includedTbl (data : PyVal) : Except String (List (String × PyVal)) := do
  let incv ← pyGet data "included"
  if truthy incv then do
    let is ← pyIter incv
    buildIncluded is
  else
    pure []

/-- Post-response processing of `find_person` (lines 190–206 of `app.py`):
build the `included` lookup, flatten every primary resource, and wrap the
result as `{"count": len(results), "people": results}`. -/
def findPersonFlatten (data : PyVal) : Except String PyVal := do
  let tbl ← includedTbl data
  let d ← pyGetD data "data" (.list [])
  let items ← pyIter d
  let results ← items.mapM (personItem tbl)
  pure (.dict [("count", .int results.length), ("people", .list results)])

/-- Flattening of one `services_plans` primary resource (`data` item). -/
def planItem (tbl : List (String × PyVal)) (item : PyVal) : Except String PyVal := do
  let attrs ← pyGetD item "attributes" (.dict [])
  let rel ← pyGetD item "relationships" (.dict [])
  let trefs ← relRefs rel "plan_times"
  let times ← planCollect tbl ["starts_at", "ends_at", "name"] trefs
  let nrefs ← relRefs rel "needed_positions"
  let needed ← planCollect tbl ["team_position_name", "quantity", "assigned_count"] nrefs
  let idv ← pyGet item "id"
  let sd ← pyGet attrs "sort_date"
  let dts ← pyGet attrs "dates"
  let ttl ← pyGet attrs "title"
  let st ← pyGet attrs "series_title"
  pure (.dict [("id", idv), ("dates", pyOr sd dts), ("title", ttl), ("series_title", st),
               ("times", .list times), ("needed_positions", .list needed)])

/-- Post-response processing of `services_plans` (lines 254–271 of
`app.py`): build the `included` lookup, flatten every primary resource, and
wrap the result as `{"count": len(plans_out), "plans": plans_out}`. The
handler declares no `from_date`/`to_date` parameters and applies no
filtering of any kind to the flattened list. -/
def servicesPlansFlatten (data : PyVal) : Except String PyVal := do
  let tbl ← includedTbl data
  let d ← pyGetD data "data" (.list [])
  let items ← pyIter d
  let plans ← items.mapM (planItem tbl)
  pure (.dict [("count", .int plans.length), ("plans", .list plans)])

/-! ### Well-formed JSON:API response documents

A JSON:API response document has object-shaped resource objects; keys may
be absent anywhere, relationship `data` may be missing, empty or `null`,
and `included` may be missing or may omit any referenced resource. The
predicates below capture exactly the structural shape the handlers assume
(dicts where `.get` is called on a value, lists where a truthy value is
iterated); they do not constrain which keys are present nor which
references resolve. -/

/-- A relationship's `data` value: anything falsy (absent, `null`, `[]`,
…) or a list of reference objects. -/
def wfRefList : PyVal → Bool
  | .list rs => rs.all isDict
  | v => !truthy v

/-- A named relationship of a resource: absent, or a dict whose `data` is
a well-formed reference list. -/
def wfRelEntry (rel : PyVal) (name : String) : Bool :=
  let v := pget rel name (.dict [])
  isDict v && wfRefList (pget v "data" .none)

/-- A primary resource object: a dict whose `attributes` and
`relationships` members, when present, are dicts, with well-formed
relationships for the names the handler walks. -/
def wfItem (names : List String) (item : PyVal) : Bool :=
  isDict item &&
  isDict (pget item "attributes" (.dict [])) &&
  (let rel := pget item "relationships" (.dict [])
   isDict rel && names.all (wfRelEntry rel))

/-- A side-loaded resource: a dict whose `attributes`, when truthy, is a
dict (the code guards falsy attributes with `or {}`). -/
def wfIncludedRes (i : PyVal) : Bool :=
  isDict i && (!truthy (pget i "attributes" .none) || isDict (pget i "attributes" .none))

/-- The `included` member: anything falsy, or a list of well-formed
side-loaded resources. -/
def wfIncluded : PyVal → Bool
  | .list is => is.all wfIncludedRes
  | v => !truthy v

/-- The `data` member of a response: a list of well-formed primary
resources. -/
def wfDataList (names : List String) : PyVal → Bool
  | .list items => items.all (wfItem names)
  | _ => false

/-- A well-formed JSON:API response document for a handler that walks the
given relationship `names`. -/
def wfDoc (names : List String) (doc : PyVal) : Bool :=
  isDict doc && wfIncluded (pget doc "included" .none) &&
  wfDataList names (pget doc "data" (.list []))

/-! ## `pco_get`: upstream GET with 429 backoff -/

/-- An upstream HTTP response as `pco_get` inspects it: the status code
and the `Retry-After` header (`Option.none` = header absent). -/
structure HResp where
  status : Int
  retryAfter : Option String
deriving DecidableEq

/-- The `while True` loop of `pco_get`. `resp i` is the response to the
`i`-th GET; the result pairs the returned response with the list of sleep
durations performed, in order. `int()` failing on a `Retry-After` value is
a raised `ValueError`. The `fuel` argument only bounds the recursion;
`pcoGet` supplies `maxRetries + 1`, which the loop guard
`attempt >= max_retries` never exhausts. -/
def pcoGetAux (resp : Nat → HResp) (maxRetries : Nat) :
    Nat → Nat → Except String (HResp × List Int)
  | _, 0 => .error "out of fuel"
  | attempt, fuel + 1 =>
    let r := resp attempt
    if r.status ≠ 429 ∨ maxRetries ≤ attempt then
      .ok (r, [])
    else
      match pyIntParse ((r.retryAfter).getD "1") with
      | Option.none => .error "ValueError: invalid literal for int"
      | Option.some ra =>
        match pcoGetAux resp maxRetries (attempt + 1) fuel with
        | .ok (res, sleeps) => .ok (res, ra :: sleeps)
        | .error e => .error e

/-- `pco_get(url, headers, params, max_retries)`, abstracted over the
stream of upstream responses. -/
def pcoGet (resp : Nat → HResp) (maxRetries : Nat) : Except String (HResp × List Int) :=
  pcoGetAux resp maxRetries 0 (maxRetries + 1)

/-! ## `exchange_code_for_token` -/

/-- How the client credentials are presented on a token-endpoint POST. -/
inductive AuthMode : Type where
  | bodyCreds : AuthMode
  | basicAuth : AuthMode
deriving DecidableEq

/-- A token-endpoint response: status, parsed JSON body, raw text. -/
structure TokenResp where
  status : Int
  json : PyVal
  text : String

/-- `exchange_code_for_token`, abstracted over the token endpoint
(`post m` is the response to a POST carrying the credentials in mode `m`).
Returns the payload the Python function returns together with the list of
POSTs actually made, in order. -/
def exchangeCodeForToken (post : AuthMode → TokenResp) : PyVal × List AuthMode :=
  let r := post .bodyCreds
  if r.status = 200 then (r.json, [.bodyCreds])
  else
    let r2 := post .basicAuth
    if r2.status = 200 then (r2.json, [.bodyCreds, .basicAuth])
    else (.dict [("error", .str "token_exchange_failed"),
                 ("status", .int r2.status), ("body", .str r2.text)],
          [.bodyCreds, .basicAuth])

/-! ## Token store and `get_valid_access_token` -/

/-- Python truthiness of an optional string (`None` and `""` are falsy). -/
def truthyOptStr : Option String → Bool
  | Option.none => false
  | Option.some s => s ≠ ""

/-- A `TOKEN_STORE` record as written by `auth_callback` /
`get_valid_access_token`. Timestamps are modelled as integers. -/
structure TokenEntry where
  access_token : String
  refresh_token : Option String
  expires_at : Option Int
deriving DecidableEq

/-- A successful refresh response (`refresh_access_token` raises on any
non-2xx, so only the parsed JSON of a success reaches the caller);
`Option.none` marks an absent key. -/
structure RefreshResp where
  access_token : String
  refresh_token : Option String
  expires_in : Option Int
deriving DecidableEq

/-- The in-process `TOKEN_STORE` mapping. -/
abbrev Store := List (String × TokenEntry)

/-- `TOKEN_STORE.get(tkey)`. -/
def storeGet (s : Store) (k : String) : Option TokenEntry :=
  (s.find? (fun p => p.1 == k)).map (·.2)

/-- `TOKEN_STORE[tkey] = entry`. -/
def storeSet : Store → String → TokenEntry → Store
  | [], k, v => [(k, v)]
  | p :: rest, k, v => if p.1 = k then (k, v) :: rest else p :: storeSet rest k v

/-- The refresh guard of `get_valid_access_token`:
`entry.get("expires_at") and entry["expires_at"] - time.time() < 60 and
 entry.get("refresh_token")` under Python truthiness. -/
def refreshCond (entry : TokenEntry) (now : Int) : Bool :=
  (match entry.expires_at with
    | Option.some v => v != 0 && decide (v - now < 60)
    | Option.none => false) && truthyOptStr entry.refresh_token

/-- The mutated record after a refresh:
`entry["access_token"] = newt["access_token"];
 entry["refresh_token"] = newt.get("refresh_token", entry["refresh_token"]);
 entry["expires_at"] = time.time() + int(newt.get("expires_in", 3600))`. -/
def refreshedEntry (entry : TokenEntry) (resp : RefreshResp) (now : Int) : TokenEntry :=
  { access_token := resp.access_token,
    refresh_token := match resp.refresh_token with
      | Option.some r => Option.some r
      | Option.none => entry.refresh_token,
    expires_at := Option.some (now + resp.expires_in.getD 3600) }

/-- `get_valid_access_token(tkey)` at clock `now`, abstracted over the
refresh endpoint's (successful) response. Returns the access token, the
store after the call, and whether a refresh was performed. -/
def getValidAccessToken (store : Store) (tkey : String) (now : Int) (resp : RefreshResp) :
    Except String (String × Store × Bool) :=
  match storeGet store tkey with
  | Option.none => .error "HTTPException 401: Not connected to Planning Center. Visit /connect."
  | Option.some entry =>
    if refreshCond entry now then
      let e : TokenEntry := refreshedEntry entry resp now
      .ok (e.access_token, storeSet store tkey e, true)
    else
      .ok (entry.access_token, store, false)

/-- `n` consecutive calls to `get_valid_access_token` at the same clock
against the same refresh endpoint, counting how many of them refreshed. -/
def repeatCalls (tkey : String) (now : Int) (resp : RefreshResp) :
    Nat → Store → Except String (Store × Nat)
  | 0, s => .ok (s, 0)
  | n + 1, s =>
    match getValidAccessToken s tkey now resp with
    | .error e => .error e
    | .ok (_, s', b) =>
      match repeatCalls tkey now resp n s' with
      | .error e => .error e
      | .ok (s'', c) => .ok (s'', c + (if b then 1 else 0))

/-! ## `auth_callback` -/

/-- Python `v[k]` subscripting (raises `KeyError`/`TypeError`). -/
def pyIndex : PyVal → String → Except String PyVal
  | .dict kvs, k =>
    match PyVal.dictFind? kvs k with
    | Option.some v => .ok v
    | Option.none => .error "KeyError"
  | _, _ => .error "TypeError: object is not subscriptable"

/-- The token-store record written by `auth_callback` (field values taken
from the token payload, hence arbitrary `PyVal`s). -/
structure CbEntry where
  access_token : PyVal
  refresh_token : PyVal
  expires_at : Int

/-- The observable outcome of `auth_callback`. -/
inductive CbOut : Type where
  | oauthErrorParam : CbOut                -- HTTPException 400 "OAuth error: ..."
  | invalidState : CbOut                   -- HTTPException 400 "Invalid OAuth state. Start over at /connect."
  | exchangeFailed (status : PyVal) : CbOut -- HTTPException token_payload.get("status", 500)
  | connected : CbOut                      -- {"connected": True, ...}

/-- `auth_callback(code, state, error)` with session values
`sessionOAuthState` (= `request.session.get("oauth_state")`), abstracted
over the payload that `exchange_code_for_token` would return. The result
carries the outcome, the `TOKEN_STORE["default"]` slot afterwards, and
whether the token exchange was attempted. Session clearing after success
is not modelled (it does not affect the verified properties). -/
def authCallback (sessionOAuthState stateParam errorParam : Option String)
    (payload : PyVal) (now : Int) (slot : Option CbEntry) :
    Except String (CbOut × Option CbEntry × Bool) :=
  if truthyOptStr errorParam then .ok (.oauthErrorParam, slot, false)
  else if sessionOAuthState ≠ stateParam then .ok (.invalidState, slot, false)
  else
    match pyHasKey payload "error" with
    | .error e => .error e
    | .ok true =>
      match pyGetD payload "status" (.int 500) with
      | .error e => .error e
      | .ok st => .ok (.exchangeFailed st, slot, true)
    | .ok false =>
      match pyIndex payload "access_token" with
      | .error e => .error e
      | .ok atok =>
        match pyGet payload "refresh_token" with
        | .error e => .error e
        | .ok rt =>
          match pyGetD payload "expires_in" (.int 3600) with
          | .error e => .error e
          | .ok eiv =>
            match pyToInt eiv with
            | .error e => .error e
            | .ok ei => .ok (.connected, Option.some ⟨atok, rt, now + ei⟩, true)

/-! ## `_fetch_service_types`: paginated walk -/

/-- One page response as the walk inspects it: status, the `data` items,
and the `links.next` value (`Option.none` when absent or `null`). -/
structure PageResp where
  status : Int
  data : List PyVal
  next : Option String

/-- Truthiness of the `next` link (`None` and `""` end the walk). -/
def nextTruthy (r : PageResp) : Bool :=
  match r.next with
  | Option.some s => s ≠ ""
  | Option.none => false

/-- The `while url and pages < max_pages` loop of `_fetch_service_types`.
`pages i` is the response to the `i`-th fetch; `urlT` is the truthiness of
the current `url`; `k` counts fetches made so far. Returns the collected
items (or the raised `HTTPException` on a non-200) and the total number of
fetches. `fuel` equals `maxPages - k` throughout, so the fuel-exhausted
branch coincides with the `pages < max_pages` guard failing. -/
def fetchAux (pages : Nat → PageResp) (maxPages : Nat) :
    Nat → Bool → List PyVal → Nat → Except String (List PyVal) × Nat
  | 0, _, acc, k => (.ok acc, k)
  | fuel + 1, urlT, acc, k =>
    if urlT ∧ k < maxPages then
      let r := pages k
      if r.status ≠ 200 then (.error "HTTPException from upstream", k + 1)
      else fetchAux pages maxPages fuel (nextTruthy r) (acc ++ r.data) (k + 1)
    else (.ok acc, k)

/-- `_fetch_service_types(headers, page_size, max_pages)`: the initial
`url` is the constant collection endpoint (truthy). -/
def fetchServiceTypes (pages : Nat → PageResp) (maxPages : Nat) :
    Except String (List PyVal) × Nat :=
  fetchAux pages maxPages maxPages true [] 0

/-! ## `_best_name_matches` -/

/-- A service-type item as `_best_name_matches` reads it: the `name` and
`sequence` attributes (`Option.none` = key absent or `null`). -/
structure SType where
  name : Option String
  sequence : Option Int
deriving DecidableEq

/-- `(it.get("attributes", {}) or {}).get("name") or ""`: a missing or
falsy name becomes `""`. -/
def nameStrOf (it : SType) : String :=
  match it.name with
  | Option.some s => s
  | Option.none => ""

/-- Python `needle in hay` for strings (substring containment). -/
def strContains (hay needle : String) : Bool :=
  hay.toList.tails.any (fun t => needle.toList.isPrefixOf t)

/-- The scoring of `_best_name_matches`: 3 exact, 2 prefix, 1 substring,
0 otherwise, on the lowered name (`startswith` is modelled on the
character lists). -/
def scoreFor (q : String) (it : SType) : Int :=
  let nlow := pyLower (nameStrOf it)
  if nlow == q then 3
  else if q.toList.isPrefixOf nlow.toList then 2
  else if strContains nlow q then 1
  else 0

/-- The sequence component of the sort key:
`((t[1].get('attributes') or {}).get('sequence') or 99999)` — under
Python truthiness a missing (`None`) **or zero** sequence becomes the
sentinel `99999`. -/
def seqKey (it : SType) : Int :=
  match it.sequence with
  | Option.some n => if n = 0 then 99999 else n
  | Option.none => 99999

/-- Lexicographic `≤` on Python's 2-tuples of ints, as used by
`list.sort(key=...)`. -/
def keyLE (a b : Int × Int) : Prop :=
  a.1 < b.1 ∨ (a.1 = b.1 ∧ a.2 ≤ b.2)

instance keyLE.instDecidableRel : DecidableRel keyLE := fun a b => by
  unfold keyLE
  exact inferInstance

/-- The scored list built by the loop of `_best_name_matches`: one
`(score, item)` pair per matching item, in input order. -/
def scoredOf (q : String) (items : List SType) : List (Int × SType) :=
  items.foldr (fun it acc =>
    let s := scoreFor q it
    if 0 < s then (s, it) :: acc else acc) []

/-- The sort key `lambda t: (-t[0], ... sequence ... or 99999)`. -/
def sortKey (p : Int × SType) : Int × Int :=
  (-p.1, seqKey p.2)

/-- `_best_name_matches(items, query)`. Python's `list.sort` is a stable
ascending sort by the key; it is modelled by `List.insertionSort` with the
non-strict key order, which is stable. `q = (query or "").strip().lower()`
(ASCII case folding). -/
def bestNameMatches (items : List SType) (query : Option String) : List SType :=
  let q := pyLower (pyStrip (query.getD ""))
  let scored := scoredOf q items
  (List.insertionSort (fun a b => keyLE (sortKey a) (sortKey b)) scored).map (·.2)

/-- The ordering the claim describes: score descending, then the *actual*
`sequence` ascending with a missing sequence treated as a large sentinel
(so `0` sorts first among present sequences). -/
def claimSeqKey (it : SType) : Int :=
  match it.sequence with
  | Option.some n => n
  | Option.none => 99999

/-! # Theorems -/

/-- C9: for every code exchange, a failing first POST (credentials in the
body) is followed by exactly one further POST using Basic authentication;
if that also fails the returned payload carries the upstream status code
and body of the second attempt and no further attempt is made; a
successful attempt's JSON payload is returned. -/
theorem c9_exchange_retries_once_with_basic (post : AuthMode → TokenResp) :
    ((post .bodyCreds).status = 200 →
      exchangeCodeForToken post = ((post .bodyCreds).json, [.bodyCreds])) ∧
    ((post .bodyCreds).status ≠ 200 →
      (exchangeCodeForToken post).2 = [.bodyCreds, .basicAuth] ∧
      ((post .basicAuth).status = 200 →
        (exchangeCodeForToken post).1 = (post .basicAuth).json) ∧
      ((post .basicAuth).status ≠ 200 →
        (exchangeCodeForToken post).1 =
          .dict [("error", .str "token_exchange_failed"),
                 ("status", .int (post .basicAuth).status),
                 ("body", .str (post .basicAuth).text)])) := by
  refine ⟨fun h1 => ?_, fun h1 => ?_⟩
  · simp [exchangeCodeForToken, h1]
  · by_cases h2 : (post .basicAuth).status = 200 <;>
      simp [exchangeCodeForToken, h1, h2]

/-- Witness for C9 at two concrete endpoints: one succeeding on the first
POST, one failing on both. -/
theorem c9_exchange_retries_once_with_basic_witness :
    (exchangeCodeForToken (fun _ => ⟨200, .str "payload", "payload"⟩)
        = (.str "payload", [.bodyCreds])) ∧
    ((exchangeCodeForToken (fun m => match m with
        | .bodyCreds => ⟨400, .none, "bad request"⟩
        | .basicAuth => ⟨401, .none, "unauthorized"⟩)).1
        = .dict [("error", .str "token_exchange_failed"),
                 ("status", .int 401), ("body", .str "unauthorized")]) := by
  constructor
  · exact (c9_exchange_retries_once_with_basic
      (fun _ => ⟨200, .str "payload", "payload"⟩)).1 rfl
  · exact (((c9_exchange_retries_once_with_basic (fun m => match m with
      | .bodyCreds => ⟨400, .none, "bad request"⟩
      | .basicAuth => ⟨401, .none, "unauthorized"⟩)).2 (by decide)).2).2 (by decide)

/-- C1 (amended): whenever the `state` query parameter differs from the
session's stored `oauth_state` — in particular whenever exactly one of the
two is missing — `auth_callback` fails with HTTP 400 before the token
exchange is attempted and without touching the token store. (The case
where BOTH are missing passes the `!=` check and proceeds; see the
counterexample.) -/
theorem c1_state_mismatch_fails_before_exchange
    (sessionOAuthState stateParam errorParam : Option String)
    (payload : PyVal) (now : Int) (slot : Option CbEntry)
    (herr : truthyOptStr errorParam = false)
    (hne : sessionOAuthState ≠ stateParam) :
    authCallback sessionOAuthState stateParam errorParam payload now slot
      = .ok (.invalidState, slot, false) := by
  simp [authCallback, herr, hne]

/-- Witness for C1: a missing `state` parameter with a present session
value (and vice versa) is rejected with the state kept out of the store. -/
theorem c1_state_mismatch_fails_before_exchange_witness :
    truthyOptStr Option.none = false ∧
    (Option.some "nonce" ≠ (Option.none : Option String)) ∧
    authCallback (Option.some "nonce") Option.none Option.none
        (.dict [("access_token", .str "tok")]) 0 Option.none
      = .ok (.invalidState, Option.none, false) :=
  ⟨rfl, by decide,
    c1_state_mismatch_fails_before_exchange (Option.some "nonce") Option.none Option.none
      (.dict [("access_token", .str "tok")]) 0 Option.none rfl (by decide)⟩

/-- C1 counterexample: when BOTH the `state` parameter and the session's
`oauth_state` are missing, `None != None` is false, so the handler does
NOT fail with 400: the token exchange is attempted (third component
`true`) and the token store is written. This refutes the claim's
"including when the state parameter or the session value is missing". -/
theorem c1_both_missing_state_passes :
    authCallback Option.none Option.none Option.none
        (.dict [("access_token", .str "tok")]) 0 Option.none
      = .ok (.connected, Option.some ⟨.str "tok", .none, 3600⟩, true) := rfl

/-! ### `pco_get` lemmas -/

/-- When every response up to attempt `maxRetries` is a 429 with a parsing
`Retry-After`, the loop sleeps once per retry and returns the response of
attempt `maxRetries` — the last 429 — unmodified. -/
lemma pcoGetAux_all429 (resp : Nat → HResp) (m : Nat) (t : Nat → Int)
    (h429 : ∀ i, i ≤ m → (resp i).status = 429)
    (hpar : ∀ i, i < m → pyIntParse ((resp i).retryAfter.getD "1") = Option.some (t i)) :
    ∀ fuel attempt, attempt + fuel = m + 1 → attempt ≤ m →
      pcoGetAux resp m attempt fuel
        = .ok (resp m, (List.range' attempt (m - attempt)).map t) := by
  intro fuel
  induction fuel with
  | zero => intro attempt hsum hle; omega
  | succ n ih =>
    intro attempt hsum hle
    have hs : (resp attempt).status = 429 := h429 attempt hle
    by_cases hm : attempt = m
    · subst hm
      simp [pcoGetAux, hs]
    · have hlt : attempt < m := lt_of_le_of_ne hle hm
      have hrec := ih (attempt + 1) (by omega) (by omega)
      have hmsub : m - attempt = (m - (attempt + 1)) + 1 := by omega
      simp only [pcoGetAux, hs, ne_eq, not_true_eq_false, false_or,
        Nat.not_le.mpr hlt, if_false, hpar attempt hlt, hrec, hmsub,
        List.range'_succ, List.map_cons]

/-- When every `Retry-After` header in the stream parses (or is absent,
defaulting to `"1"`), `pco_get` never raises. -/
lemma pcoGetAux_ok_of_parses (resp : Nat → HResp) (m : Nat)
    (hpar : ∀ i, (pyIntParse ((resp i).retryAfter.getD "1")).isSome = true) :
    ∀ fuel attempt, attempt + fuel = m + 1 → attempt ≤ m →
      (pcoGetAux resp m attempt fuel).isOk = true := by
  intro fuel
  induction fuel with
  | zero => intro attempt hsum hle; omega
  | succ n ih =>
    intro attempt hsum hle
    by_cases hg : (resp attempt).status ≠ 429 ∨ m ≤ attempt
    · simp [pcoGetAux, hg, Except.isOk, Except.toBool]
    · obtain ⟨ra, hra⟩ := Option.isSome_iff_exists.mp (hpar attempt)
      push_neg at hg
      have hlt : attempt < m := by omega
      have hrec := ih (attempt + 1) (by omega) (by omega)
      simp only [pcoGetAux, hg.1, ne_eq, not_true_eq_false, false_or,
        Nat.not_le.mpr hlt, if_false, hra]
      cases hres : pcoGetAux resp m (attempt + 1) n with
      | ok pr => simp [Except.isOk, Except.toBool]
      | error e => rw [hres] at hrec; simp [Except.isOk, Except.toBool] at hrec

/-- C5: `pco_get` retries only on 429, sleeping per the `Retry-After`
header between attempts: (i) a non-429 first response is returned at once
with no sleep; (ii) two 429s followed by a 200 (at the default ceiling
`max_retries = 3`) give exactly two sleeps of the parsed header durations
and the 200 is returned; (iii) with every response up to the ceiling a
429, the loop sleeps `max_retries` times and returns the last 429
unmodified; (iv) an absent header defaults to a 1-second sleep. -/
theorem c5_pco_get_backoff :
    (∀ (resp : Nat → HResp) (m : Nat), (resp 0).status ≠ 429 →
      pcoGet resp m = .ok (resp 0, [])) ∧
    (∀ (resp : Nat → HResp) (t0 t1 : Int),
      (resp 0).status = 429 → (resp 1).status = 429 → (resp 2).status = 200 →
      pyIntParse ((resp 0).retryAfter.getD "1") = Option.some t0 →
      pyIntParse ((resp 1).retryAfter.getD "1") = Option.some t1 →
      pcoGet resp 3 = .ok (resp 2, [t0, t1])) ∧
    (∀ (resp : Nat → HResp) (m : Nat) (t : Nat → Int),
      (∀ i, i ≤ m → (resp i).status = 429) →
      (∀ i, i < m → pyIntParse ((resp i).retryAfter.getD "1") = Option.some (t i)) →
      pcoGet resp m = .ok (resp m, (List.range m).map t)) ∧
    (∀ (resp : Nat → HResp),
      (resp 0).status = 429 → (resp 0).retryAfter = Option.none →
      (resp 1).status ≠ 429 →
      pcoGet resp 3 = .ok (resp 1, [1])) := by
  refine ⟨fun resp m h => ?_, fun resp t0 t1 h0 h1 h2 hp0 hp1 => ?_,
    fun resp m t h429 hpar => ?_, fun resp h0 hra h1 => ?_⟩
  · simp [pcoGet, pcoGetAux, h]
  · simp [pcoGet, pcoGetAux, h0, h1, h2, hp0, hp1]
  · have := pcoGetAux_all429 resp m t h429 hpar (m + 1) 0 (by omega) (by omega)
    simpa [pcoGet, List.range_eq_range'] using this
  · have hp : pyIntParse ((resp 0).retryAfter.getD "1") = Option.some 1 := by
      rw [hra]; rfl
    simp [pcoGet, pcoGetAux, h0, h1, hp]

/-- Witness for C5 on concrete response streams. -/
theorem c5_pco_get_backoff_witness :
    pcoGet (fun _ => ⟨200, Option.none⟩) 3 = .ok (⟨200, Option.none⟩, []) ∧
    pcoGet (fun i => if i < 2 then ⟨429, Option.some "5"⟩ else ⟨200, Option.none⟩) 3
      = .ok (⟨200, Option.none⟩, [5, 5]) ∧
    pcoGet (fun _ => ⟨429, Option.some "2"⟩) 3
      = .ok (⟨429, Option.some "2"⟩, [2, 2, 2]) := by
  refine ⟨c5_pco_get_backoff.1 (fun _ => ⟨200, Option.none⟩) 3 (by decide), ?_, ?_⟩
  · have := c5_pco_get_backoff.2.1
      (fun i => if i < 2 then ⟨429, Option.some "5"⟩ else ⟨200, Option.none⟩)
      5 5 (by decide) (by decide) (by decide) (by decide) (by decide)
    simpa using this
  · have := c5_pco_get_backoff.2.2.1 (fun _ => ⟨429, Option.some "2"⟩) 3 (fun _ => 2)
      (fun i _ => rfl) (fun i _ => rfl)
    simpa using this

/-- C10: a 429 whose `Retry-After` header does not parse as a decimal
integer (e.g. an HTTP-date) makes `pco_get` raise `ValueError` instead of
sleeping, retrying or returning the response; conversely the
retry-and-return behaviour is total whenever every header in the stream
parses (absent headers defaulting to `"1"`). -/
theorem c10_retry_after_parse :
    (∀ (resp : Nat → HResp) (m : Nat) (s : String),
      0 < m → (resp 0).status = 429 → (resp 0).retryAfter = Option.some s →
      pyIntParse s = Option.none →
      pcoGet resp m = .error "ValueError: invalid literal for int") ∧
    (∀ (resp : Nat → HResp) (m : Nat),
      (∀ i, (pyIntParse ((resp i).retryAfter.getD "1")).isSome = true) →
      (pcoGet resp m).isOk = true) := by
  constructor
  · intro resp m s hm h0 hra hparse
    have hp : pyIntParse ((resp 0).retryAfter.getD "1") = Option.none := by
      rw [hra]; exact hparse
    cases m with
    | zero => omega
    | succ k => simp [pcoGet, pcoGetAux, h0, Nat.not_le.mpr hm, hp]
  · intro resp m hpar
    exact pcoGetAux_ok_of_parses resp m hpar (m + 1) 0 (by omega) (by omega)

/-- Witness for C10: an HTTP-date `Retry-After` raises; an all-integer
stream returns normally. -/
theorem c10_retry_after_parse_witness :
    pcoGet (fun _ => ⟨429, Option.some "Wed, 21 Oct 2015 07:28:00 GMT"⟩) 3
      = .error "ValueError: invalid literal for int" ∧
    (pcoGet (fun _ => ⟨429, Option.some "7"⟩) 3).isOk = true := by
  constructor
  · exact c10_retry_after_parse.1 (fun _ => ⟨429, Option.some "Wed, 21 Oct 2015 07:28:00 GMT"⟩)
      3 "Wed, 21 Oct 2015 07:28:00 GMT" (by decide) rfl rfl (by decide)
  · exact c10_retry_after_parse.2 (fun _ => ⟨429, Option.some "7"⟩) 3 (fun i => rfl)

/-! ### Token-store lemmas -/

/-- Writing a key and reading it back. -/
lemma storeGet_storeSet_self (s : Store) (k : String) (v : TokenEntry) :
    storeGet (storeSet s k v) k = Option.some v := by
  induction s with
  | nil => simp [storeSet, storeGet]
  | cons p rest ih =>
    by_cases h : p.1 = k
    · simp [storeSet, storeGet, h]
    · have hb : (p.1 == k) = false := beq_eq_false_iff_ne.mpr h
      simp only [storeSet, if_neg h, storeGet, List.find?, hb]
      exact ih

/-- C7: a `valid_token` call that refreshes replaces the stored record
with expiry `now + expires_in`; while the clock is unchanged and the new
record is not within 60 seconds of expiry, every subsequent call returns
the same cached access token with the store unchanged and without
invoking refresh again — any number of repeated calls performs zero
further refreshes. -/
theorem c7_refresh_idempotent_within_window
    (store : Store) (tkey : String) (now : Int) (resp : RefreshResp) (entry : TokenEntry)
    (hget : storeGet store tkey = Option.some entry)
    (hcond : refreshCond entry now = true)
    (hwin : 60 < resp.expires_in.getD 3600) :
    ∃ s₁ : Store,
      getValidAccessToken store tkey now resp = .ok (resp.access_token, s₁, true) ∧
      (∃ e₁ : TokenEntry, storeGet s₁ tkey = Option.some e₁ ∧
        e₁.access_token = resp.access_token ∧
        e₁.expires_at = Option.some (now + resp.expires_in.getD 3600)) ∧
      (∀ resp₂ : RefreshResp,
        getValidAccessToken s₁ tkey now resp₂ = .ok (resp.access_token, s₁, false)) ∧
      (∀ (n : Nat) (resp₂ : RefreshResp),
        repeatCalls tkey now resp₂ n s₁ = .ok (s₁, 0)) := by
  have hd : decide (now + resp.expires_in.getD 3600 - now < 60) = false :=
    decide_eq_false (by omega)
  have hacc : (refreshedEntry entry resp now).access_token = resp.access_token := rfl
  have hnc : refreshCond (refreshedEntry entry resp now) now = false := by
    simp only [refreshCond, refreshedEntry]
    rw [hd]
    simp
  refine ⟨storeSet store tkey (refreshedEntry entry resp now), ?_,
    ⟨refreshedEntry entry resp now,
      storeGet_storeSet_self store tkey (refreshedEntry entry resp now), rfl, rfl⟩, ?_, ?_⟩
  · simp [getValidAccessToken, hget, hcond, hacc]
  · intro resp₂
    simp [getValidAccessToken, storeGet_storeSet_self, hnc, hacc]
  · intro n
    induction n with
    | zero => intro resp₂; rfl
    | succ k ih =>
      intro resp₂
      simp [repeatCalls, getValidAccessToken, storeGet_storeSet_self, hnc, ih resp₂]

/-- Witness for C7: a record 10 seconds from expiry with a refresh token,
refreshed to a one-hour expiry. -/
theorem c7_refresh_idempotent_within_window_witness :
    storeGet [("default", (⟨"old", Option.some "r1", Option.some 1010⟩ : TokenEntry))] "default"
      = Option.some ⟨"old", Option.some "r1", Option.some 1010⟩ ∧
    refreshCond ⟨"old", Option.some "r1", Option.some 1010⟩ 1000 = true ∧
    (∃ s₁ : Store,
      getValidAccessToken [("default", ⟨"old", Option.some "r1", Option.some 1010⟩)]
          "default" 1000 ⟨"new", Option.some "r2", Option.some 3600⟩
        = .ok ("new", s₁, true) ∧
      (∃ e₁ : TokenEntry, storeGet s₁ "default" = Option.some e₁ ∧
        e₁.access_token = "new" ∧ e₁.expires_at = Option.some 4600) ∧
      (∀ resp₂ : RefreshResp,
        getValidAccessToken s₁ "default" 1000 resp₂ = .ok ("new", s₁, false)) ∧
      (∀ (n : Nat) (resp₂ : RefreshResp),
        repeatCalls "default" 1000 resp₂ n s₁ = .ok (s₁, 0))) := by
  refine ⟨rfl, rfl, ?_⟩
  exact c7_refresh_idempotent_within_window
    [("default", ⟨"old", Option.some "r1", Option.some 1010⟩)] "default" 1000
    ⟨"new", Option.some "r2", Option.some 3600⟩
    ⟨"old", Option.some "r1", Option.some 1010⟩ rfl rfl (by decide)

/-! ### Pagination lemmas -/

/-- The walk makes at most `k + fuel` fetches from state `k`. -/
lemma fetchAux_count_le (pages : Nat → PageResp) (maxPages : Nat) :
    ∀ (fuel : Nat) (urlT : Bool) (acc : List PyVal) (k : Nat),
      (fetchAux pages maxPages fuel urlT acc k).2 ≤ k + fuel := by
  intro fuel
  induction fuel with
  | zero => intro urlT acc k; simp [fetchAux]
  | succ n ih =>
    intro urlT acc k
    by_cases hg : urlT ∧ k < maxPages
    · by_cases hs : (pages k).status ≠ 200
      · simp only [fetchAux, if_pos hg, if_pos hs]; omega
      · simp only [fetchAux, if_pos hg, if_neg hs]
        have := ih (nextTruthy (pages k)) (acc ++ (pages k).data) (k + 1)
        omega
    · simp only [fetchAux, if_neg hg]; omega

/-- Once the `url` is falsy the walk stops immediately. -/
lemma fetchAux_false_url (pages : Nat → PageResp) (maxPages : Nat) :
    ∀ (fuel : Nat) (acc : List PyVal) (k : Nat),
      fetchAux pages maxPages fuel false acc k = (.ok acc, k) := by
  intro fuel
  cases fuel with
  | zero => intro acc k; rfl
  | succ n => intro acc k; simp [fetchAux]

/-- Unfolding one iteration of the walk while the guard holds. -/
lemma fetchAux_step (pages : Nat → PageResp) (maxPages n : Nat)
    (acc : List PyVal) (k : Nat) (hk : k < maxPages) :
    fetchAux pages maxPages (n + 1) true acc k
      = if (pages k).status ≠ 200 then (.error "HTTPException from upstream", k + 1)
        else fetchAux pages maxPages n (nextTruthy (pages k)) (acc ++ (pages k).data) (k + 1) := by
  simp [fetchAux, hk]

/-- Early stop: when pages `0..k-1` are 200s with truthy `next` links and
page `k` is a 200 with a falsy `next`, the walk makes exactly `k + 1`
fetches and succeeds. -/
lemma fetchAux_early_stop (pages : Nat → PageResp) (maxPages k : Nat)
    (hk : k < maxPages)
    (hbefore : ∀ i, i < k → (pages i).status = 200 ∧ nextTruthy (pages i) = true)
    (hstat : (pages k).status = 200) (hnext : nextTruthy (pages k) = false) :
    ∀ (fuel : Nat) (j : Nat) (acc : List PyVal), j + fuel = maxPages → j ≤ k →
      ∃ out, fetchAux pages maxPages fuel true acc j = (.ok out, k + 1) := by
  intro fuel
  induction fuel with
  | zero => intro j acc hsum hle; omega
  | succ n ih =>
    intro j acc hsum hle
    have hjm : j < maxPages := by omega
    by_cases hjk : j = k
    · subst hjk
      rw [fetchAux_step pages maxPages n acc j hjm, if_neg (by simp [hstat]), hnext,
        fetchAux_false_url]
      exact ⟨acc ++ (pages j).data, rfl⟩
    · have hjlt : j < k := lt_of_le_of_ne hle hjk
      obtain ⟨hs, hn⟩ := hbefore j hjlt
      rw [fetchAux_step pages maxPages n acc j hjm, if_neg (by simp [hs]), hn]
      exact ih (j + 1) (acc ++ (pages j).data) (by omega) (by omega)

/-- C8: the service-type pagination walk fetches at most `max_pages`
pages for EVERY stream of upstream responses (including one whose `next`
link never disappears), and it stops early — after exactly `k + 1`
fetches — as soon as the `k`-th response carries no (truthy) `next` link. -/
theorem c8_pagination_bounded :
    (∀ (pages : Nat → PageResp) (maxPages : Nat),
      (fetchServiceTypes pages maxPages).2 ≤ maxPages) ∧
    (∀ (pages : Nat → PageResp) (maxPages k : Nat),
      k < maxPages →
      (∀ i, i < k → (pages i).status = 200 ∧ nextTruthy (pages i) = true) →
      (pages k).status = 200 → nextTruthy (pages k) = false →
      ∃ out, fetchServiceTypes pages maxPages = (.ok out, k + 1)) := by
  constructor
  · intro pages maxPages
    have := fetchAux_count_le pages maxPages maxPages true [] 0
    simpa [fetchServiceTypes] using this
  · intro pages maxPages k hk hbefore hstat hnext
    exact fetchAux_early_stop pages maxPages k hk hbefore hstat hnext maxPages 0 []
      (by omega) (by omega)

/-- Witness for C8: a never-ending stream is cut at `max_pages`; a stream
whose second page has no `next` stops after 2 fetches. -/
theorem c8_pagination_bounded_witness :
    (fetchServiceTypes (fun _ => ⟨200, [], Option.some "next-url"⟩) 5).2 ≤ 5 ∧
    (∃ out, fetchServiceTypes (fun i =>
        if i = 0 then ⟨200, [], Option.some "next-url"⟩ else ⟨200, [], Option.none⟩) 5
      = (.ok out, 2)) := by
  constructor
  · exact c8_pagination_bounded.1 (fun _ => ⟨200, [], Option.some "next-url"⟩) 5
  · exact c8_pagination_bounded.2 (fun i =>
      if i = 0 then ⟨200, [], Option.some "next-url"⟩ else ⟨200, [], Option.none⟩) 5 1
      (by omega)
      (fun i hi => by
        have : i = 0 := by omega
        subst this
        exact ⟨rfl, rfl⟩)
      rfl rfl

/-! ### `_best_name_matches` lemmas -/

lemma keyLE_refl (a : Int × Int) : keyLE a a := Or.inr ⟨rfl, le_refl _⟩

lemma keyLE_total (a b : Int × Int) : keyLE a b ∨ keyLE b a := by
  rcases lt_trichotomy a.1 b.1 with h | h | h
  · exact Or.inl (Or.inl h)
  · rcases le_total a.2 b.2 with h2 | h2
    · exact Or.inl (Or.inr ⟨h, h2⟩)
    · exact Or.inr (Or.inr ⟨h.symm, h2⟩)
  · exact Or.inr (Or.inl h)

lemma keyLE_trans (a b c : Int × Int) (hab : keyLE a b) (hbc : keyLE b c) : keyLE a c := by
  rcases hab with h | ⟨he, h2⟩ <;> rcases hbc with h' | ⟨he', h2'⟩
  · exact Or.inl (h.trans h')
  · exact Or.inl (he' ▸ h)
  · exact Or.inl (he ▸ h')
  · exact Or.inr ⟨he.trans he', h2.trans h2'⟩

/-- The scored list is the positive-scoring items, decorated with their
scores, in input order. -/
lemma scoredOf_eq_filter (q : String) (items : List SType) :
    scoredOf q items
      = (items.filter (fun it => decide (0 < scoreFor q it))).map
          (fun it => (scoreFor q it, it)) := by
  induction items with
  | nil => rfl
  | cons it rest ih =>
    by_cases h : 0 < scoreFor q it
    · simp [scoredOf, List.filter_cons, h, ← ih, scoredOf]
    · simp [scoredOf, List.filter_cons, h, ← ih, scoredOf]

/-- Every pair in the scored list carries the score of its item. -/
lemma scoredOf_mem (q : String) (items : List SType) (pr : Int × SType)
    (hm : pr ∈ scoredOf q items) : pr.1 = scoreFor q pr.2 ∧ 0 < pr.1 := by
  rw [scoredOf_eq_filter] at hm
  obtain ⟨it, hit, rfl⟩ := List.mem_map.mp hm
  exact ⟨rfl, by simpa using (List.mem_filter.mp hit).2⟩

/-- Stability of `orderedInsert` by a non-strict key order: filtering any
single key class commutes with the insertion. -/
lemma filter_orderedInsert_key {α : Type} (key : α → Int × Int) (k : Int × Int)
    (x : α) (l : List α) :
    (List.orderedInsert (fun a b => keyLE (key a) (key b)) x l).filter
        (fun a => key a == k)
      = (x :: l).filter (fun a => key a == k) := by
  induction l with
  | nil => rfl
  | cons y ys ih =>
    by_cases hr : keyLE (key x) (key y)
    · simp [List.orderedInsert, if_pos hr]
    · have hne : key x ≠ key y := fun he => hr (he ▸ keyLE_refl (key x))
      rw [List.orderedInsert, if_neg hr]
      by_cases hky : (key y == k) = true <;> by_cases hkx : (key x == k) = true
      · exact absurd ((eq_of_beq hkx).trans (eq_of_beq hky).symm) hne
      · simp [List.filter_cons, hky, hkx, ih]
      · simp [List.filter_cons, hky, hkx, ih]
      · simp [List.filter_cons, hky, hkx, ih]

/-- Stability of `insertionSort` by a non-strict key order. -/
lemma filter_insertionSort_key {α : Type} (key : α → Int × Int) (k : Int × Int)
    (l : List α) :
    (List.insertionSort (fun a b => keyLE (key a) (key b)) l).filter (fun a => key a == k)
      = l.filter (fun a => key a == k) := by
  induction l with
  | nil => rfl
  | cons x xs ih =>
    rw [List.insertionSort, filter_orderedInsert_key key k x _, List.filter_cons,
      List.filter_cons, ih]

/-- C6 (amended): `_best_name_matches` returns exactly the items whose
name matches the query (score 3 exact, 2 prefix, 1 substring,
case-insensitive; non-matches excluded), ordered by score descending and
then ascending by the key "`sequence` when truthy (nonzero), else the
sentinel 99999" — so a missing OR ZERO sequence sorts at the sentinel
position — and the order is stable (input order preserved) within each
(score, key) class; in particular the Youth example returns
["Youth", "Youth Worship"] in that order. -/
theorem c6_best_name_matches_ranked :
    (∀ (items : List SType) (query : Option String),
      List.Pairwise (fun a b =>
          keyLE (-(scoreFor (pyLower (pyStrip (query.getD ""))) a), seqKey a)
                (-(scoreFor (pyLower (pyStrip (query.getD ""))) b), seqKey b))
        (bestNameMatches items query) ∧
      (bestNameMatches items query).Perm
        (items.filter (fun it => decide (0 < scoreFor (pyLower (pyStrip (query.getD ""))) it))) ∧
      (∀ k : Int × Int,
        (bestNameMatches items query).filter (fun it =>
            ((-(scoreFor (pyLower (pyStrip (query.getD ""))) it), seqKey it) == k))
          = (items.filter (fun it =>
              decide (0 < scoreFor (pyLower (pyStrip (query.getD ""))) it))).filter
              (fun it =>
                ((-(scoreFor (pyLower (pyStrip (query.getD ""))) it), seqKey it) == k)))) ∧
    bestNameMatches
        [⟨Option.some "Youth", Option.none⟩, ⟨Option.some "Youth Worship", Option.none⟩,
         ⟨Option.some "Kids", Option.none⟩] (Option.some "youth")
      = [⟨Option.some "Youth", Option.none⟩, ⟨Option.some "Youth Worship", Option.none⟩] := by
  constructor
  · intro items query
    set q := pyLower (pyStrip (query.getD "")) with hq
    have hmem : ∀ pr ∈ List.insertionSort
        (fun a b => keyLE (sortKey a) (sortKey b)) (scoredOf q items),
        pr.1 = scoreFor q pr.2 ∧ 0 < pr.1 := by
      intro pr hpr
      exact scoredOf_mem q items pr ((List.perm_insertionSort _ _).mem_iff.mp hpr)
    refine ⟨?_, ?_, ?_⟩
    · have hsorted : List.Sorted (fun a b => keyLE (sortKey a) (sortKey b))
          (List.insertionSort (fun a b => keyLE (sortKey a) (sortKey b)) (scoredOf q items)) := by
        haveI : IsTotal (Int × SType) (fun a b => keyLE (sortKey a) (sortKey b)) :=
          ⟨fun a b => keyLE_total _ _⟩
        haveI : IsTrans (Int × SType) (fun a b => keyLE (sortKey a) (sortKey b)) :=
          ⟨fun a b c => keyLE_trans _ _ _⟩
        exact List.sorted_insertionSort _ _
      refine List.pairwise_map.mpr (List.Pairwise.imp_of_mem ?_ hsorted)
      intro a b ha hb hle
      have hka : sortKey a = (-(scoreFor q a.2), seqKey a.2) := by
        rw [sortKey, (hmem a ha).1]
      have hkb : sortKey b = (-(scoreFor q b.2), seqKey b.2) := by
        rw [sortKey, (hmem b hb).1]
      rw [hka, hkb] at hle
      exact hle
    · show ((List.insertionSort (fun a b => keyLE (sortKey a) (sortKey b))
          (scoredOf q items)).map (·.2)).Perm _
      refine ((List.perm_insertionSort _ _).map _).trans ?_
      rw [scoredOf_eq_filter, List.map_map,
        show ((fun x : Int × SType => x.2) ∘ fun it => (scoreFor q it, it))
            = (id : SType → SType) from rfl,
        List.map_id]
    · intro k
      show ((List.insertionSort (fun a b => keyLE (sortKey a) (sortKey b))
          (scoredOf q items)).map (·.2)).filter _ = _
      rw [List.filter_map]
      have hcongr : ∀ pr ∈ List.insertionSort
          (fun a b => keyLE (sortKey a) (sortKey b)) (scoredOf q items),
          (((fun it => ((-(scoreFor q it), seqKey it) == k)) ∘ (·.2)) pr : Bool)
            = (sortKey pr == k) := by
        intro pr hpr
        simp only [Function.comp_apply, sortKey, (hmem pr hpr).1]
      rw [List.filter_congr hcongr, filter_insertionSort_key sortKey k]
      have hcongr2 : ∀ pr ∈ scoredOf q items,
          ((sortKey pr == k) : Bool)
            = (((fun it => ((-(scoreFor q it), seqKey it) == k)) ∘ (·.2)) pr : Bool) := by
        intro pr hpr
        simp only [Function.comp_apply, sortKey, (scoredOf_mem q items pr hpr).1]
      rw [List.filter_congr hcongr2, ← List.filter_map, scoredOf_eq_filter, List.map_map,
        show ((fun x : Int × SType => x.2) ∘ fun it => (scoreFor q it, it))
            = (id : SType → SType) from rfl,
        List.map_id]
  · decide

/-- C6 counterexample: two exact matches with sequences 0 and 1. Under
the claim's ordering (ascending `sequence`) the sequence-0 item must come
first; the code's `or 99999` treats the falsy sequence 0 as the sentinel,
so the sequence-1 item comes first instead. -/
theorem c6_sequence_zero_sorts_last :
    bestNameMatches
        [⟨Option.some "a", Option.some 0⟩, ⟨Option.some "a", Option.some 1⟩]
        (Option.some "a")
      = [⟨Option.some "a", Option.some 1⟩, ⟨Option.some "a", Option.some 0⟩] ∧
    ¬ List.Pairwise (fun a b : SType => claimSeqKey a ≤ claimSeqKey b)
        (bestNameMatches
          [⟨Option.some "a", Option.some 0⟩, ⟨Option.some "a", Option.some 1⟩]
          (Option.some "a")) := by
  constructor
  · decide
  · decide

/-! ### Flattening lemmas -/

lemma except_bind_ok {α β : Type} (a : α) (f : α → Except String β) :
    (Except.ok a >>= f : Except String β) = f a := rfl

lemma except_pure {α : Type} (a : α) : (pure a : Except String α) = .ok a := rfl

lemma pyGet_eq {v : PyVal} (k : String) (h : isDict v = true) :
    pyGet v k = .ok (pget v k .none) := by
  cases v <;> first | rfl | simp [isDict] at h

lemma pyGetD_eq {v : PyVal} (k : String) (d : PyVal) (h : isDict v = true) :
    pyGetD v k d = .ok (pget v k d) := by
  cases v <;> first | rfl | simp [isDict] at h

/-- All values of the `included` lookup table are well-formed resources. -/
def wfTbl (tbl : List (String × PyVal)) : Prop :=
  ∀ v ∈ tbl.map (·.2), wfIncludedRes v = true

lemma lookupIncl_mem (tbl : List (String × PyVal)) (k : String) (v : PyVal)
    (h : lookupIncl tbl k = Option.some v) : v ∈ tbl.map (·.2) := by
  obtain ⟨pr, hfind, hv⟩ := Option.map_eq_some'.mp h
  exact List.mem_map.mpr ⟨pr, List.mem_reverse.mp (List.mem_of_find?_eq_some hfind), hv⟩

lemma buildIncluded_eq (is : List PyVal) (h : is.all isDict = true) :
    buildIncluded is = .ok (is.map (fun i => (pkey i, i))) := by
  induction is with
  | nil => rfl
  | cons i rest ih =>
    rw [List.all_cons, Bool.and_eq_true] at h
    have ihr := ih h.2
    rw [buildIncluded] at ihr ⊢
    rw [List.mapM_cons]
    simp only [pyGet_eq "type" h.1, pyGet_eq "id" h.1, except_bind_ok, except_pure] at ihr ⊢
    rw [ihr]
    rfl

lemma wfIncludedRes_isDict {i : PyVal} (h : wfIncludedRes i = true) : isDict i = true := by
  rw [wfIncludedRes, Bool.and_eq_true] at h
  exact h.1

/-- One step of unfolding `personRefVal` on a dict reference. -/
lemma personRefVal_dict (tbl : List (String × PyVal)) (attr : String)
    (kvs : List (String × PyVal)) :
    personRefVal tbl attr (.dict kvs)
      = (if truthy ((lookupIncl tbl (pkey (.dict kvs))).getD .none) then
           (do
             let a ← pyGet ((lookupIncl tbl (pkey (.dict kvs))).getD .none) "attributes"
             pyGet (pyOr a (.dict [])) attr : Except String PyVal)
         else pure .none) := rfl

/-- Under well-formedness the attribute source
`(inc.get("attributes") or {})` is a dict. -/
lemma pyOr_attrs_isDict {w : PyVal}
    (hwf : (!truthy (pget w "attributes" .none) || isDict (pget w "attributes" .none)) = true) :
    isDict (pyOr (pget w "attributes" .none) (.dict [])) = true := by
  rw [pyOr]
  by_cases hta : truthy (pget w "attributes" .none) = true
  · rw [if_pos hta]
    have hor := hwf
    simp only [Bool.or_eq_true] at hor
    rcases hor with hcase | hcase
    · simp [hta] at hcase
    · exact hcase
  · rw [if_neg hta]
    rfl

/-- Resolving one reference in the `find_person` loop never raises. -/
lemma personRefVal_ok (tbl : List (String × PyVal)) (attr : String) (ref : PyVal)
    (href : isDict ref = true) (htbl : wfTbl tbl) :
    ∃ v, personRefVal tbl attr ref = .ok v := by
  cases ref with
  | dict kvs =>
    rw [personRefVal_dict]
    cases hl : lookupIncl tbl (pkey (.dict kvs)) with
    | none => exact ⟨.none, by simp [truthy, except_pure]⟩
    | some w =>
      have hwf := htbl w (lookupIncl_mem _ _ _ hl)
      rw [wfIncludedRes, Bool.and_eq_true] at hwf
      by_cases ht : truthy w = true
      · have htarget := pyOr_attrs_isDict hwf.2
        refine ⟨pget (pyOr (pget w "attributes" .none) (.dict [])) attr .none, ?_⟩
        simp only [Option.getD, ht, if_true, pyGet_eq "attributes" hwf.1,
          except_bind_ok, pyGet_eq attr htarget]
      · exact ⟨.none, by simp [Option.getD, ht, except_pure]⟩
  | none => simp [isDict] at href
  | bool b => simp [isDict] at href
  | int n => simp [isDict] at href
  | str s => simp [isDict] at href
  | list xs => simp [isDict] at href

/-- The `find_person` loop over a reference list never raises. -/
lemma personCollect_ok (tbl : List (String × PyVal)) (attr : String) (refs : List PyVal)
    (hrefs : refs.all isDict = true) (htbl : wfTbl tbl) :
    ∃ out, personCollect tbl attr refs = .ok out := by
  induction refs with
  | nil => exact ⟨[], rfl⟩
  | cons r rest ih =>
    rw [List.all_cons, Bool.and_eq_true] at hrefs
    obtain ⟨v, hv⟩ := personRefVal_ok tbl attr r hrefs.1 htbl
    obtain ⟨tail, htail⟩ := ih hrefs.2
    exact ⟨if truthy v then v :: tail else tail, by
      rw [personCollect, hv, except_bind_ok, htail, except_bind_ok, except_pure]⟩

lemma mapM_pyGet (attrs : PyVal) (h : isDict attrs = true) (fields : List String) :
    fields.mapM (fun f => pyGet attrs f)
      = .ok (fields.map (fun f => pget attrs f .none)) := by
  induction fields with
  | nil => rfl
  | cons f rest ih =>
    rw [List.mapM_cons, pyGet_eq f h, except_bind_ok, ih, except_bind_ok, except_pure,
      List.map_cons]

/-- One step of unfolding `planRefRecord` on a dict reference. -/
lemma planRefRecord_dict (tbl : List (String × PyVal)) (fields : List String)
    (kvs : List (String × PyVal)) :
    planRefRecord tbl fields (.dict kvs)
      = ((do
          let attrs ← if truthy ((lookupIncl tbl (pkey (.dict kvs))).getD .none) then do
              let a ← pyGet ((lookupIncl tbl (pkey (.dict kvs))).getD .none) "attributes"
              pure (pyOr a (.dict []))
            else
              pure (PyVal.dict [])
          let vals ← fields.mapM (fun f => pyGet attrs f)
          pure (.dict (fields.zip vals))) : Except String PyVal) := rfl

/-- Resolving one reference in the `services_plans` loop never raises and
always yields a record of the requested fields (extracted from a dict of
attributes, the empty dict when the reference does not resolve). -/
lemma planRefRecord_ok (tbl : List (String × PyVal)) (fields : List String) (ref : PyVal)
    (href : isDict ref = true) (htbl : wfTbl tbl) :
    ∃ attrs, isDict attrs = true ∧
      planRefRecord tbl fields ref
        = .ok (.dict (fields.zip (fields.map (fun f => pget attrs f .none)))) := by
  cases ref with
  | dict kvs =>
    rw [planRefRecord_dict]
    cases hl : lookupIncl tbl (pkey (.dict kvs)) with
    | none =>
      refine ⟨.dict [], rfl, ?_⟩
      simp only [Option.getD, truthy, Bool.false_eq_true, if_false, except_pure,
        except_bind_ok, mapM_pyGet (.dict []) rfl fields]
    | some w =>
      have hwf := htbl w (lookupIncl_mem _ _ _ hl)
      rw [wfIncludedRes, Bool.and_eq_true] at hwf
      by_cases ht : truthy w = true
      · have htarget := pyOr_attrs_isDict hwf.2
        refine ⟨pyOr (pget w "attributes" .none) (.dict []), htarget, ?_⟩
        simp only [Option.getD, ht, if_true, pyGet_eq "attributes" hwf.1,
          except_bind_ok, except_pure, mapM_pyGet _ htarget fields]
      · refine ⟨.dict [], rfl, ?_⟩
        simp only [Option.getD]
        rw [if_neg ht]
        simp only [except_pure, except_bind_ok, mapM_pyGet (.dict []) rfl fields]
  | none => simp [isDict] at href
  | bool b => simp [isDict] at href
  | int n => simp [isDict] at href
  | str s => simp [isDict] at href
  | list xs => simp [isDict] at href

/-- The `services_plans` loop over a reference list never raises. -/
lemma planCollect_ok (tbl : List (String × PyVal)) (fields : List String) (refs : List PyVal)
    (hrefs : refs.all isDict = true) (htbl : wfTbl tbl) :
    ∃ out, planCollect tbl fields refs = .ok out := by
  induction refs with
  | nil => exact ⟨[], rfl⟩
  | cons r rest ih =>
    rw [List.all_cons, Bool.and_eq_true] at hrefs
    obtain ⟨attrs, _, hv⟩ := planRefRecord_ok tbl fields r hrefs.1 htbl
    obtain ⟨tail, htail⟩ := ih hrefs.2
    exact ⟨_ :: tail, by
      rw [planCollect, hv, except_bind_ok, htail, except_bind_ok, except_pure]⟩

/-- A truthy well-formed reference-list value is a list of dicts. -/
lemma wfRefList_truthy_list {v : PyVal} (hwf : wfRefList v = true) (ht : truthy v = true) :
    ∃ rs, v = .list rs ∧ rs.all isDict = true := by
  cases v with
  | list rs => exact ⟨rs, rfl, by simpa [wfRefList] using hwf⟩
  | none => simp [wfRefList, ht] at hwf
  | bool b => simp [wfRefList, ht] at hwf
  | int n => simp [wfRefList, ht] at hwf
  | str s => simp [wfRefList, ht] at hwf
  | dict kvs => simp [wfRefList, ht] at hwf

/-- A truthy well-formed `included` value is a list of well-formed
resources. -/
lemma wfIncluded_truthy_list {v : PyVal} (hwf : wfIncluded v = true) (ht : truthy v = true) :
    ∃ is, v = .list is ∧ is.all wfIncludedRes = true := by
  cases v with
  | list is => exact ⟨is, rfl, by simpa [wfIncluded] using hwf⟩
  | none => simp [wfIncluded, ht] at hwf
  | bool b => simp [wfIncluded, ht] at hwf
  | int n => simp [wfIncluded, ht] at hwf
  | str s => simp [wfIncluded, ht] at hwf
  | dict kvs => simp [wfIncluded, ht] at hwf

/-- Walking a well-formed relationship yields a list of dict references. -/
lemma relRefs_ok (rel : PyVal) (name : String)
    (hrel : isDict rel = true) (hwf : wfRelEntry rel name = true) :
    ∃ refs, relRefs rel name = .ok refs ∧ refs.all isDict = true := by
  rw [wfRelEntry, Bool.and_eq_true] at hwf
  have hdat := pyGet_eq (v := pget rel name (.dict [])) "data" hwf.1
  by_cases ht : truthy (pget (pget rel name (.dict [])) "data" .none) = true
  · obtain ⟨rs, hd, hall⟩ := wfRefList_truthy_list hwf.2 ht
    refine ⟨rs, ?_, hall⟩
    rw [relRefs, pyGetD_eq name (.dict []) hrel, except_bind_ok, hdat,
      except_bind_ok, if_pos ht, hd]
    rfl
  · refine ⟨[], ?_, rfl⟩
    rw [relRefs, pyGetD_eq name (.dict []) hrel, except_bind_ok, hdat,
      except_bind_ok, if_neg ht]
    rfl

lemma zip_map_self {α β : Type} (g : α → β) (l : List α) :
    l.zip (l.map g) = l.map (fun x => (x, g x)) := by
  induction l with
  | nil => rfl
  | cons x xs ih => simp [ih]

/-- Flattening one well-formed `find_person` primary resource never
raises. -/
lemma personItem_ok (tbl : List (String × PyVal)) (item : PyVal)
    (hwf : wfItem ["emails", "phone_numbers"] item = true) (htbl : wfTbl tbl) :
    ∃ v, personItem tbl item = .ok v := by
  simp only [wfItem, Bool.and_eq_true, List.all_cons, List.all_nil, Bool.and_true] at hwf
  obtain ⟨⟨hitem, hattrs⟩, hrel, hemailswf, hphoneswf⟩ := hwf
  obtain ⟨erefs, herefs, hedicts⟩ :=
    relRefs_ok (pget item "relationships" (.dict [])) "emails" hrel hemailswf
  obtain ⟨emails, hemails⟩ := personCollect_ok tbl "address" erefs hedicts htbl
  obtain ⟨prefs, hprefs, hpdicts⟩ :=
    relRefs_ok (pget item "relationships" (.dict [])) "phone_numbers" hrel hphoneswf
  obtain ⟨phones, hphones⟩ := personCollect_ok tbl "number" prefs hpdicts htbl
  apply Exists.intro
  unfold personItem
  rw [pyGetD_eq "attributes" (.dict []) hitem, except_bind_ok,
    pyGetD_eq "relationships" (.dict []) hitem, except_bind_ok,
    herefs, except_bind_ok, hemails, except_bind_ok,
    hprefs, except_bind_ok, hphones, except_bind_ok,
    pyGet_eq "id" hitem, except_bind_ok,
    pyGet_eq "name" hattrs, except_bind_ok,
    pyGet_eq "first_name" hattrs, except_bind_ok,
    pyGet_eq "last_name" hattrs, except_bind_ok, except_pure]

/-- Flattening one well-formed `services_plans` primary resource never
raises. -/
lemma planItem_ok (tbl : List (String × PyVal)) (item : PyVal)
    (hwf : wfItem ["plan_times", "needed_positions"] item = true) (htbl : wfTbl tbl) :
    ∃ v, planItem tbl item = .ok v := by
  simp only [wfItem, Bool.and_eq_true, List.all_cons, List.all_nil, Bool.and_true] at hwf
  obtain ⟨⟨hitem, hattrs⟩, hrel, htimeswf, hneededwf⟩ := hwf
  obtain ⟨trefs, htrefs, htdicts⟩ :=
    relRefs_ok (pget item "relationships" (.dict [])) "plan_times" hrel htimeswf
  obtain ⟨times, htimes⟩ := planCollect_ok tbl ["starts_at", "ends_at", "name"] trefs htdicts htbl
  obtain ⟨nrefs, hnrefs, hndicts⟩ :=
    relRefs_ok (pget item "relationships" (.dict [])) "needed_positions" hrel hneededwf
  obtain ⟨needed, hneeded⟩ :=
    planCollect_ok tbl ["team_position_name", "quantity", "assigned_count"] nrefs hndicts htbl
  apply Exists.intro
  unfold planItem
  rw [pyGetD_eq "attributes" (.dict []) hitem, except_bind_ok,
    pyGetD_eq "relationships" (.dict []) hitem, except_bind_ok,
    htrefs, except_bind_ok, htimes, except_bind_ok,
    hnrefs, except_bind_ok, hneeded, except_bind_ok,
    pyGet_eq "id" hitem, except_bind_ok,
    pyGet_eq "sort_date" hattrs, except_bind_ok,
    pyGet_eq "dates" hattrs, except_bind_ok,
    pyGet_eq "title" hattrs, except_bind_ok,
    pyGet_eq "series_title" hattrs, except_bind_ok, except_pure]

lemma mapM_ok_length {α β : Type} (f : α → Except String β) (xs : List α)
    (h : ∀ x ∈ xs, ∃ y, f x = .ok y) :
    ∃ ys, xs.mapM f = .ok ys ∧ ys.length = xs.length := by
  induction xs with
  | nil => exact ⟨[], rfl, rfl⟩
  | cons x rest ih =>
    obtain ⟨y, hy⟩ := h x (List.mem_cons_self x rest)
    obtain ⟨ys, hys, hlen⟩ := ih (fun z hz => h z (List.mem_cons_of_mem x hz))
    refine ⟨y :: ys, ?_, by simp [hlen]⟩
    rw [List.mapM_cons, hy, except_bind_ok, hys, except_bind_ok, except_pure]

/-- Building the lookup table from a well-formed `included` value never
raises and yields a table of well-formed resources. -/
lemma tblFor_ok (v : PyVal) (hwf : wfIncluded v = true) :
    ∃ tbl, (if truthy v then do
        let is ← pyIter v
        buildIncluded is
      else pure ([] : List (String × PyVal))) = .ok tbl ∧ wfTbl tbl := by
  by_cases ht : truthy v = true
  · obtain ⟨is, rfl, hall⟩ := wfIncluded_truthy_list hwf ht
    have hdicts : is.all isDict = true := by
      rw [List.all_eq_true] at hall ⊢
      exact fun i hi => wfIncludedRes_isDict (hall i hi)
    refine ⟨is.map (fun i => (pkey i, i)), ?_, ?_⟩
    · rw [if_pos ht]
      show (pyIter (.list is) >>= buildIncluded) = _
      rw [show pyIter (.list is) = .ok is from rfl, except_bind_ok, buildIncluded_eq is hdicts]
    · intro w hw
      rw [List.map_map] at hw
      simp only [Function.comp_apply, List.mem_map] at hw
      obtain ⟨i, hi, rfl⟩ := hw
      exact List.all_eq_true.mp hall i hi
  · refine ⟨[], by rw [if_neg ht]; rfl, ?_⟩
    intro w hw
    simp at hw

/-- Building the lookup table of a well-formed document never raises. -/
lemma includedTbl_ok (doc : PyVal) (hdoc : isDict doc = true)
    (hinc : wfIncluded (pget doc "included" .none) = true) :
    ∃ tbl, includedTbl doc = .ok tbl ∧ wfTbl tbl := by
  obtain ⟨tbl, heq, htbl⟩ := tblFor_ok (pget doc "included" .none) hinc
  refine ⟨tbl, ?_, htbl⟩
  unfold includedTbl
  rw [pyGet_eq "included" hdoc, except_bind_ok, heq]

/-- A well-formed `data` value is a list of well-formed items. -/
lemma wfDataList_list {names : List String} {v : PyVal} (h : wfDataList names v = true) :
    ∃ items, v = .list items ∧ items.all (wfItem names) = true := by
  cases v with
  | list items => exact ⟨items, rfl, by simpa [wfDataList] using h⟩
  | none => simp [wfDataList] at h
  | bool b => simp [wfDataList] at h
  | int n => simp [wfDataList] at h
  | str s => simp [wfDataList] at h
  | dict kvs => simp [wfDataList] at h

/-- `services_plans` flattening of a well-formed document: it succeeds and
produces exactly one output plan per primary resource — no filtering of
any kind (in particular no date filtering) is applied. -/
lemma servicesPlansFlatten_eq (doc : PyVal) (items : List PyVal)
    (hwf : wfDoc ["plan_times", "needed_positions"] doc = true)
    (hdata : pget doc "data" (.list []) = .list items) :
    ∃ plans, servicesPlansFlatten doc
        = .ok (.dict [("count", .int plans.length), ("plans", .list plans)]) ∧
      plans.length = items.length := by
  simp only [wfDoc, Bool.and_eq_true] at hwf
  obtain ⟨⟨hdoc, hinc⟩, hdata'⟩ := hwf
  rw [hdata] at hdata'
  simp only [wfDataList] at hdata'
  obtain ⟨tbl, htblEq, htbl⟩ := includedTbl_ok doc hdoc hinc
  have hitems : ∀ item ∈ items, ∃ v, planItem tbl item = .ok v := fun item hi =>
    planItem_ok tbl item (List.all_eq_true.mp hdata' item hi) htbl
  obtain ⟨plans, hplans, hlen⟩ := mapM_ok_length (planItem tbl) items hitems
  refine ⟨plans, ?_, hlen⟩
  unfold servicesPlansFlatten
  rw [htblEq, except_bind_ok,
    pyGetD_eq "data" (.list []) hdoc, except_bind_ok, hdata,
    show pyIter (.list items) = .ok items from rfl, except_bind_ok, hplans, except_bind_ok,
    except_pure]

/-- `find_person` flattening of a well-formed document succeeds. -/
lemma findPersonFlatten_ok (doc : PyVal)
    (hwf : wfDoc ["emails", "phone_numbers"] doc = true) :
    ∃ out, findPersonFlatten doc = .ok out := by
  simp only [wfDoc, Bool.and_eq_true] at hwf
  obtain ⟨⟨hdoc, hinc⟩, hdata'⟩ := hwf
  obtain ⟨items, hdata, hall⟩ := wfDataList_list hdata'
  obtain ⟨tbl, htblEq, htbl⟩ := includedTbl_ok doc hdoc hinc
  have hitems : ∀ item ∈ items, ∃ v, personItem tbl item = .ok v := fun item hi =>
    personItem_ok tbl item (List.all_eq_true.mp hall item hi) htbl
  obtain ⟨results, hres, _⟩ := mapM_ok_length (personItem tbl) items hitems
  apply Exists.intro
  unfold findPersonFlatten
  rw [htblEq, except_bind_ok,
    pyGetD_eq "data" (.list []) hdoc, except_bind_ok, hdata,
    show pyIter (.list items) = .ok items from rfl, except_bind_ok, hres, except_bind_ok,
    except_pure]

/-- A reference absent from the lookup resolves to `None` in the
`find_person` loop. -/
lemma personRefVal_missing (tbl : List (String × PyVal)) (attr : String)
    (kvs : List (String × PyVal))
    (hl : lookupIncl tbl (pkey (.dict kvs)) = Option.none) :
    personRefVal tbl attr (.dict kvs) = .ok .none := by
  rw [personRefVal_dict, hl]
  rfl

/-- A reference absent from the lookup yields the all-`None` record in the
`services_plans` loop. -/
lemma planRefRecord_missing (tbl : List (String × PyVal)) (fields : List String)
    (kvs : List (String × PyVal))
    (hl : lookupIncl tbl (pkey (.dict kvs)) = Option.none) :
    planRefRecord tbl fields (.dict kvs)
      = .ok (.dict (fields.map (fun f => (f, PyVal.none)))) := by
  rw [planRefRecord_dict, hl]
  simp only [Option.getD]
  rw [if_neg (by simp [truthy])]
  simp only [except_pure, except_bind_ok, mapM_pyGet (.dict []) rfl fields]
  rw [show (fun f => pget (.dict []) f PyVal.none) = fun _ => PyVal.none from funext fun f => rfl,
    zip_map_self]

/-! ### C2, C3, C4 -/

/-- C3: for every well-formed JSON:API response document the
denormalization never raises — missing relationships, missing attributes
and references absent from the `included` lookup all degrade: for both
handlers the flattening succeeds, a missing reference contributes no email
in the Person handler, and contributes an all-`None` record in the Plan
handler. -/
theorem c3_denormalization_never_raises :
    (∀ doc, wfDoc ["emails", "phone_numbers"] doc = true →
      (findPersonFlatten doc).isOk = true) ∧
    (∀ doc, wfDoc ["plan_times", "needed_positions"] doc = true →
      (servicesPlansFlatten doc).isOk = true) ∧
    (∀ (tbl : List (String × PyVal)) (attr : String) (kvs : List (String × PyVal)),
      lookupIncl tbl (pkey (.dict kvs)) = Option.none →
      personCollect tbl attr [.dict kvs] = .ok []) ∧
    (∀ (tbl : List (String × PyVal)) (fields : List String) (kvs : List (String × PyVal)),
      lookupIncl tbl (pkey (.dict kvs)) = Option.none →
      planCollect tbl fields [.dict kvs]
        = .ok [.dict (fields.map (fun f => (f, PyVal.none)))]) := by
  refine ⟨fun doc h => ?_, fun doc h => ?_, fun tbl attr kvs hl => ?_, fun tbl fields kvs hl => ?_⟩
  · obtain ⟨out, hout⟩ := findPersonFlatten_ok doc h
    rw [hout]
    rfl
  · have h' := h
    simp only [wfDoc, Bool.and_eq_true] at h'
    obtain ⟨⟨_, _⟩, hdl⟩ := h'
    obtain ⟨items, hdata, _⟩ := wfDataList_list hdl
    obtain ⟨plans, heq, _⟩ := servicesPlansFlatten_eq doc items h hdata
    rw [heq]
    rfl
  · rw [personCollect, personRefVal_missing tbl attr kvs hl, except_bind_ok]
    rfl
  · rw [planCollect, planRefRecord_missing tbl fields kvs hl, except_bind_ok]
    rfl

/-- A well-formed Person document for the C3 witness: one person with one
email reference that the (empty) `included` array cannot resolve. -/
def c3PersonDoc : PyVal :=
  .dict [("data", .list [.dict
    [("id", .str "1"), ("attributes", .dict [("name", .str "Ann")]),
     ("relationships", .dict [("emails", .dict [("data", .list
        [.dict [("type", .str "Email"), ("id", .str "9")]])])])]])]

/-- A well-formed Plan document for the C3 witness: one plan with one
unresolvable plan-time reference. -/
def c3PlanDoc : PyVal :=
  .dict [("data", .list [.dict
    [("id", .str "p1"), ("attributes", .dict [("dates", .str "2024-03-01")]),
     ("relationships", .dict [("plan_times", .dict [("data", .list
        [.dict [("type", .str "PlanTime"), ("id", .str "7")]])])])]])]

/-- Witness for C3 on concrete documents with unresolvable references. -/
theorem c3_denormalization_never_raises_witness :
    wfDoc ["emails", "phone_numbers"] c3PersonDoc = true ∧
    (findPersonFlatten c3PersonDoc).isOk = true ∧
    wfDoc ["plan_times", "needed_positions"] c3PlanDoc = true ∧
    (servicesPlansFlatten c3PlanDoc).isOk = true ∧
    lookupIncl [] (pkey (.dict [("type", .str "Email"), ("id", .str "9")])) = Option.none ∧
    personCollect [] "address" [.dict [("type", .str "Email"), ("id", .str "9")]] = .ok [] ∧
    planCollect [] ["starts_at", "ends_at", "name"]
        [.dict [("type", .str "PlanTime"), ("id", .str "7")]]
      = .ok [.dict [("starts_at", PyVal.none), ("ends_at", PyVal.none), ("name", PyVal.none)]] :=
  ⟨rfl, c3_denormalization_never_raises.1 c3PersonDoc rfl, rfl,
    c3_denormalization_never_raises.2.1 c3PlanDoc rfl, rfl,
    c3_denormalization_never_raises.2.2.1 [] "address"
      [("type", .str "Email"), ("id", .str "9")] rfl,
    c3_denormalization_never_raises.2.2.2 [] ["starts_at", "ends_at", "name"]
      [("type", .str "PlanTime"), ("id", .str "7")] rfl⟩

/-- C2 (amended): `GET /pco/services/plans` applies NO date filtering —
the handler declares no `from_date`/`to_date` parameters, and the
flattened output contains exactly one plan per primary resource of the
upstream response, whatever its `dates` value. -/
theorem c2_plans_no_date_filter (doc : PyVal) (items : List PyVal)
    (hwf : wfDoc ["plan_times", "needed_positions"] doc = true)
    (hdata : pget doc "data" (.list []) = .list items) :
    ∃ plans, servicesPlansFlatten doc
        = .ok (.dict [("count", .int plans.length), ("plans", .list plans)]) ∧
      plans.length = items.length :=
  servicesPlansFlatten_eq doc items hwf hdata

/-- The C2 counterexample document: one plan dated 2024-01-01. -/
def c2Doc : PyVal :=
  .dict [("data", .list [.dict
    [("id", .str "p1"), ("attributes", .dict [("dates", .str "2024-01-01")])]])]

/-- C2 counterexample: with `from_date = "2024-02-01"` the claim requires
the plan dated `"2024-01-01"` (which sorts lexically before the bound) to
be excluded; the handler returns it — no date filtering exists in
`services_plans`. -/
theorem c2_early_plan_not_excluded :
    servicesPlansFlatten c2Doc
      = .ok (.dict [("count", .int 1), ("plans", .list [.dict
          [("id", .str "p1"), ("dates", .str "2024-01-01"), ("title", PyVal.none),
           ("series_title", PyVal.none), ("times", .list []),
           ("needed_positions", .list [])]])]) ∧
    "2024-01-01".toList < "2024-02-01".toList :=
  ⟨rfl, by decide⟩

/-- Witness for C2 on the counterexample document. -/
theorem c2_plans_no_date_filter_witness :
    ∃ plans, servicesPlansFlatten c2Doc
        = .ok (.dict [("count", .int plans.length), ("plans", .list plans)]) ∧
      plans.length = 1 :=
  c2_plans_no_date_filter c2Doc
    [.dict [("id", .str "p1"), ("attributes", .dict [("dates", .str "2024-01-01")])]]
    rfl rfl

/-- The unresolvable reference of the C4 counterexample. -/
def c4Ref : PyVal := .dict [("type", .str "Email"), ("id", .str "e1")]

/-- C4 counterexample: on the SAME single reference absent from the SAME
(empty) lookup, the Person resolution contributes nothing (0 entries)
while the Plan resolution contributes one all-`None` record (1 entry) —
so the two are not the same definition parameterized only by relationship
name, attribute names and output field name. -/
theorem c4_missing_ref_treated_differently :
    personCollect [] "address" [c4Ref] = .ok [] ∧
    planCollect [] ["starts_at", "ends_at", "name"] [c4Ref]
      = .ok [.dict [("starts_at", PyVal.none), ("ends_at", PyVal.none), ("name", PyVal.none)]] ∧
    ([] : List PyVal).length
      ≠ [PyVal.dict [("starts_at", PyVal.none), ("ends_at", PyVal.none),
          ("name", PyVal.none)]].length :=
  ⟨rfl, rfl, by decide⟩

/-- C4 (amended): the two relationship resolutions share the same lookup
scheme — the key `"{type}:{id}"` resolved against the same `included`
table, attributes guarded by `or {}` — but they are parameterized by more
than the claim allows: they differ in their missing-reference policy.
With every reference unresolvable, the Person resolver yields `[]` while
the Plan resolver yields one all-`None` record per reference; on a
resolvable truthy reference both extract the same `attrs.get(...)`
values. -/
theorem c4_resolution_parameterized :
    (∀ (tbl : List (String × PyVal)) (attr : String) (fields : List String)
        (refs : List PyVal),
      refs.all isDict = true →
      (∀ r ∈ refs, lookupIncl tbl (pkey r) = Option.none) →
      personCollect tbl attr refs = .ok [] ∧
      planCollect tbl fields refs
        = .ok (refs.map (fun _ => PyVal.dict (fields.map (fun f => (f, PyVal.none)))))) ∧
    (∀ (tbl : List (String × PyVal)) (attr : String) (fields : List String)
        (kvs : List (String × PyVal)) (w : PyVal),
      lookupIncl tbl (pkey (.dict kvs)) = Option.some w →
      truthy w = true → wfIncludedRes w = true →
      personRefVal tbl attr (.dict kvs)
        = .ok (pget (pyOr (pget w "attributes" .none) (.dict [])) attr .none) ∧
      planRefRecord tbl fields (.dict kvs)
        = .ok (.dict (fields.map (fun f =>
            (f, pget (pyOr (pget w "attributes" .none) (.dict [])) f .none))))) := by
  constructor
  · intro tbl attr fields refs hall hmiss
    induction refs with
    | nil => exact ⟨rfl, rfl⟩
    | cons r rest ih =>
      rw [List.all_cons, Bool.and_eq_true] at hall
      obtain ⟨ihp, ihq⟩ := ih hall.2 (fun x hx => hmiss x (List.mem_cons_of_mem r hx))
      have hmr := hmiss r (List.mem_cons_self r rest)
      cases r with
      | dict kvs =>
        constructor
        · rw [personCollect, personRefVal_missing tbl attr kvs hmr, except_bind_ok, ihp,
            except_bind_ok, except_pure]
          rfl
        · rw [planCollect, planRefRecord_missing tbl fields kvs hmr, except_bind_ok, ihq,
            except_bind_ok, except_pure, List.map_cons]
      | none => simp [isDict] at hall
      | bool b => simp [isDict] at hall
      | int n => simp [isDict] at hall
      | str s => simp [isDict] at hall
      | list xs => simp [isDict] at hall
  · intro tbl attr fields kvs w hl ht hwfres
    rw [wfIncludedRes, Bool.and_eq_true] at hwfres
    have htarget := pyOr_attrs_isDict hwfres.2
    constructor
    · rw [personRefVal_dict, hl]
      simp only [Option.getD]
      rw [if_pos ht, pyGet_eq "attributes" hwfres.1, except_bind_ok, pyGet_eq attr htarget]
    · rw [planRefRecord_dict, hl]
      simp only [Option.getD]
      rw [if_pos ht, pyGet_eq "attributes" hwfres.1, except_bind_ok, except_pure,
        except_bind_ok, mapM_pyGet _ htarget fields, except_bind_ok, except_pure,
        zip_map_self]

/-- Witness for C4: the all-missing case on one concrete reference and
the resolvable case against a one-entry lookup. -/
theorem c4_resolution_parameterized_witness :
    (personCollect [] "address" [.dict [("type", .str "Email"), ("id", .str "e2")]] = .ok [] ∧
     planCollect [] ["starts_at"] [.dict [("type", .str "Email"), ("id", .str "e2")]]
       = .ok [.dict [("starts_at", PyVal.none)]]) ∧
    (personRefVal [("Email:e3", .dict [("attributes", .dict [("address", .str "a@b.c")])])]
        "address" (.dict [("type", .str "Email"), ("id", .str "e3")])
      = .ok (pget (pyOr (pget (.dict [("attributes", .dict [("address", .str "a@b.c")])])
          "attributes" .none) (.dict [])) "address" .none) ∧
     planRefRecord [("Email:e3", .dict [("attributes", .dict [("address", .str "a@b.c")])])]
        ["starts_at"] (.dict [("type", .str "Email"), ("id", .str "e3")])
      = .ok (.dict [("starts_at", pget (pyOr (pget
          (.dict [("attributes", .dict [("address", .str "a@b.c")])])
          "attributes" .none) (.dict [])) "starts_at" .none)])) := by
  constructor
  · exact c4_resolution_parameterized.1 [] "address" ["starts_at"]
      [.dict [("type", .str "Email"), ("id", .str "e2")]] rfl
      (fun r hr => by
        rw [List.mem_singleton] at hr
        subst hr
        rfl)
  · exact c4_resolution_parameterized.2
      [("Email:e3", .dict [("attributes", .dict [("address", .str "a@b.c")])])]
      "address" ["starts_at"] [("type", .str "Email"), ("id", .str "e3")]
      (.dict [("attributes", .dict [("address", .str "a@b.c")])]) rfl rfl rfl

end PCO
